import Mathlib

/-!
Verification of the Forki food-database pipeline
(`src/FoodDatabase/habitpet_extractor.py` and
`src/FoodDatabase/assign_usda_categories.py`).

Strings are modelled as `List Char` (`Str`).  Python floats that only ever
hold exact decimal confidence scores are modelled as `ℚ`.  The external
`rapidfuzz` scorers are parameters; `extractOne` itself is modelled from the
spec of `rapidfuzz.process.extractOne` (best-scoring choice above a cutoff).
-/

abbrev Str := List Char

/-- Whitespace class of Python's regex `\s` (ASCII): space, tab, newline,
carriage return, vertical tab, form feed. -/
def isSpaceChar (c : Char) : Bool :=
  c == ' ' || c == '\t' || c == '\n' || c == '\r' || c == '\x0b' || c == '\x0c'

/-- Python `str.strip()`: drop leading and trailing whitespace. -/
def strip_ws (l : Str) : Str :=
  ((l.dropWhile isSpaceChar).reverse.dropWhile isSpaceChar).reverse

/-- `normalize_text` from `habitpet_extractor.py`:
`re.sub(r'[^\w\s]', ' ', text.lower()).strip()` — lowercase, replace every
character that is neither word (`[A-Za-z0-9_]`) nor whitespace by a space,
then strip. -/
def normalize_text (text : Str) : Str :=
  strip_ws ((text.map Char.toLower).map
    (fun c => if c.isAlphanum || c == '_' || isSpaceChar c then c else ' '))

/-- Python `hay.startswith(needle)`. -/
def listStartsWith : Str → Str → Bool
  | _, [] => true
  | [], _ :: _ => false
  | a :: as, b :: bs => a == b && listStartsWith as bs

/-- Python `needle in hay` (substring containment). -/
def listContains : Str → Str → Bool
  | [], needle => needle.isEmpty
  | a :: as, needle => listStartsWith (a :: as) needle || listContains as needle

/-- Modelled from the spec: `rapidfuzz.process.extractOne` (the library is a
collaborator, its code is not under `src/`).  Scans the choices with the
given scorer, keeps the best-scoring choice (first one on ties), and returns
it when its score reaches the cutoff, else `none`. -/
def extractOne (scorer : Str → Str → ℚ) (query : Str) (choices : List Str)
    (score_cutoff : ℚ) : Option (Str × ℚ) :=
  let best := choices.foldl (fun acc c =>
    let s := scorer query c
    match acc with
    | none => some (c, s)
    | some (c0, s0) => if s > s0 then some (c, s) else some (c0, s0)) none
  match best with
  | some (c, s) => if s ≥ score_cutoff then some (c, s) else none
  | none => none

/-- One `if matchN and matchN[1] > best_score:` update step of strategy 4 of
`match_whitelist_item`: the accumulator is `(best_match, best_score)`. -/
def tier4_step (acc : Option (Str × ℚ) × ℚ) (m : Option (Str × ℚ)) :
    Option (Str × ℚ) × ℚ :=
  match m with
  | some r => if r.2 > acc.2 then (some r, r.2) else acc
  | none => acc

/-- `match_whitelist_item` from `habitpet_extractor.py`.  The three
`rapidfuzz` scorers (`token_set`, `partial`, `token_sort`) are external
collaborators and are passed in as parameters `s1 s2 s3`. -/
def match_whitelist_item (s1 s2 s3 : Str → Str → ℚ)
    (description : Str) (whitelist : List Str) : Option (Str × ℚ) :=
  let desc_normalized := normalize_text description
  -- Strategy 1: Exact match
  match whitelist.find? (fun item => desc_normalized == normalize_text item) with
  | some item => some (item, 100)
  | none =>
    -- Strategy 2: Starts with
    match whitelist.find? (fun item =>
        listStartsWith desc_normalized (normalize_text item) ||
        listStartsWith (normalize_text item) desc_normalized) with
    | some item => some (item, 95)
    | none =>
      -- Strategy 3: Contains
      match whitelist.find? (fun item =>
          listContains desc_normalized (normalize_text item) ||
          listContains (normalize_text item) desc_normalized) with
      | some item =>
          some (item, min ((normalize_text item).length /
            ((normalize_text description).length : ℚ) * 90) 90)
      | none =>
        -- Strategy 4: fuzzy matching, three scorers, best score wins
        let acc1 := tier4_step (none, 0) (extractOne s1 desc_normalized whitelist 60)
        let acc2 := tier4_step acc1 (extractOne s2 desc_normalized whitelist 60)
        let acc3 := tier4_step acc2 (extractOne s3 desc_normalized whitelist 60)
        acc3.1

/-! ## Classifier (`map_category` from `habitpet_extractor.py`) -/

/-- `any(x in item_lower for x in kws)` from `map_category`. -/
def any_kw (il : Str) (kws : List Str) : Bool :=
  kws.any (fun x => listContains il x)

def kw_poultry : List Str := ["chicken", "turkey", "poultry"].map String.toList

def kw_meat : List Str :=
  ["beef", "pork", "meat", "steak", "brisket", "ribeye", "sirloin",
   "sausage", "bacon", "ham", "pepperoni", "salami", "hot dog",
   "bratwurst", "jerky", "gyro", "shawarma", "meatloaf", "lasagna"].map String.toList

def kw_seafood : List Str :=
  ["salmon", "tuna", "shrimp", "fish", "cod", "tilapia",
   "sardines", "mackerel", "sushi", "poke", "clam", "crab",
   "mussels", "calamari", "tempura"].map String.toList

def kw_plant : List Str :=
  ["tofu", "tempeh", "lentils", "chickpeas", "hummus", "falafel",
   "edamame", "beans", "impossible", "beyond", "vegan", "veggie burger",
   "seitan", "soy"].map String.toList

def kw_eggs : List Str := ["egg", "omelette", "scrambled"].map String.toList

def kw_grains : List Str :=
  ["rice", "quinoa", "couscous", "farro", "barley", "oatmeal",
   "oats", "granola", "pasta", "spaghetti", "penne", "fettuccine",
   "macaroni", "lasagna", "ravioli", "gnocchi", "noodles", "ramen",
   "soba", "udon", "tortillas", "pita", "naan", "bagel", "bread",
   "roll", "sourdough"].map String.toList

def kw_vegetables : List Str :=
  ["broccoli", "cauliflower", "carrots", "celery", "spinach",
   "kale", "lettuce", "greens", "peppers", "tomatoes", "cucumbers",
   "avocado", "onions", "potatoes", "sweet potatoes", "zucchini",
   "squash", "mushrooms", "eggplant", "cabbage", "brussels", "kimchi",
   "sauerkraut", "beans", "peas", "corn", "asparagus", "bok choy",
   "pickles", "jalapeno", "salsa", "guacamole", "coleslaw",
   "artichokes", "seaweed", "beets", "radish", "pumpkin", "turnips"].map String.toList

def kw_fruits : List Str :=
  ["apple", "banana", "orange", "mandarin", "grapes", "strawberries",
   "blueberries", "raspberries", "blackberries", "mango", "pineapple",
   "watermelon", "cantaloupe", "honeydew", "kiwi", "peaches", "plums",
   "nectarines", "pomegranate", "pears", "cherries", "guava", "papaya",
   "passion fruit", "cranberries", "raisins", "dates", "figs",
   "lemon", "lime", "grapefruit"].map String.toList

def kw_dairy : List Str :=
  ["milk", "cream", "yogurt", "cheese", "cottage", "butter",
   "margarine", "ice cream", "frozen yogurt", "ricotta", "parmesan",
   "feta", "goat cheese", "kefir", "whipped cream"].map String.toList

def kw_breakfast : List Str :=
  ["pancakes", "waffles", "french toast", "breakfast", "hash browns",
   "chia pudding", "cereal"].map String.toList

def kw_sandwiches : List Str :=
  ["sandwich", "wrap", "burrito", "quesadilla", "tacos", "pita"].map String.toList

def kw_frozen : List Str :=
  ["frozen", "microwave", "bento", "tv dinner", "heat and eat"].map String.toList

def kw_snacks : List Str :=
  ["chips", "crackers", "pretzels", "popcorn", "nuts", "almonds",
   "walnuts", "cashews", "pistachios", "peanut butter", "almond butter",
   "rice cakes", "jerky", "fruit snacks", "chocolate", "cookies",
   "brownies", "muffins", "banana bread", "protein bar", "granola bar",
   "trail mix", "edamame snack", "seaweed snacks", "veggie straws"].map String.toList

def kw_drinks : List Str :=
  ["water", "soda", "coffee", "tea", "latte", "cappuccino",
   "lemonade", "smoothie", "shake", "sports drink", "energy drink",
   "juice", "kombucha", "milkshake", "chai", "matcha"].map String.toList

def kw_desserts : List Str :=
  ["cake", "cupcakes", "donuts", "pie", "pudding", "sorbet",
   "cheesecake", "tiramisu", "mochi", "churros", "cinnamon rolls",
   "banana split"].map String.toList

def kw_salads : List Str :=
  ["salad", "caesar", "greek", "garden", "cobb", "quinoa salad",
   "lentil salad", "pasta salad", "fruit salad"].map String.toList

def kw_international : List Str :=
  ["pad thai", "pho", "ramen", "bibimbap", "tikka", "masala",
   "biryani", "curry", "gyro", "shawarma", "falafel", "poke bowl",
   "teriyaki", "katsu", "spring rolls", "dumplings", "gyoza",
   "poutine", "empanada", "tamales", "enchiladas", "arepas"].map String.toList

/-- `map_category` from `habitpet_extractor.py`: ordered keyword rules over
the lowercased whitelist item (the lowercased description is computed by the
source but never used). -/
def map_category (description whitelist_item : Str) : Str :=
  let desc_lower := description.map Char.toLower
  let item_lower := whitelist_item.map Char.toLower
  if any_kw item_lower kw_poultry then "Protein - Poultry".toList
  else if any_kw item_lower kw_meat then "Protein - Meat".toList
  else if any_kw item_lower kw_seafood then "Protein - Seafood".toList
  else if any_kw item_lower kw_plant then "Protein - Plant-Based".toList
  else if any_kw item_lower kw_eggs then "Protein - Eggs".toList
  else if any_kw item_lower kw_grains then "Grains & Starches".toList
  else if any_kw item_lower kw_vegetables then "Vegetables".toList
  else if any_kw item_lower kw_fruits then "Fruits".toList
  else if any_kw item_lower kw_dairy then "Dairy & Alternatives".toList
  else if any_kw item_lower kw_breakfast then "Breakfast".toList
  else if any_kw item_lower kw_sandwiches then "Sandwiches & Wraps".toList
  else if any_kw item_lower kw_frozen then "Frozen & Ready Meals".toList
  else if any_kw item_lower kw_snacks then "Snacks".toList
  else if any_kw item_lower kw_drinks then "Drinks".toList
  else if any_kw item_lower kw_desserts then "Desserts".toList
  else if any_kw item_lower kw_salads then "Salads".toList
  else if any_kw item_lower kw_international then "International & Ethnic".toList
  else if listContains item_lower "pizza".toList then "Pizza".toList
  else "Other".toList


/-! ## Merger / deduplicator and identifier lookup
(`assign_usda_categories.py`) -/

/-- A food record as the merge step of `assign_usda_categories.py` sees it:
the two fields the dedup/sort key reads (`item.get('searchKey', '')` and
`item.get('name', '')`, absent fields behaving as `''`), the stamped
category, and a `rest` tag standing for all remaining dictionary entries
(so that distinct records with equal keys stay distinguishable). -/
structure FoodRecord where
  name : Str
  searchKey : Str
  category : Str
  rest : Nat
  deriving DecidableEq

/-- `get_sort_key` from `assign_usda_categories.py`: the normalized
(`.strip().lower()`) `searchKey` if non-empty, else the normalized `name`.
The dedup loop computes the same expression inline (`unique_key`). -/
def get_sort_key (item : FoodRecord) : Str :=
  let key := (strip_ws item.searchKey).map Char.toLower
  if key = [] then (strip_ws item.name).map Char.toLower else key

/-- The dedup loop of `assign_usda_categories.py` (lines 187-200): walk the
concatenated list keeping a set of seen keys; keep a record when its key is
non-empty and unseen, or when its key is empty; otherwise drop it. -/
def dedup_go : List Str → List FoodRecord → List FoodRecord
  | _, [] => []
  | seen, item :: rest =>
    let unique_key := get_sort_key item
    if unique_key ≠ [] ∧ unique_key ∉ seen then
      item :: dedup_go (unique_key :: seen) rest
    else if unique_key = [] then
      item :: dedup_go seen rest
    else
      dedup_go seen rest

/-- The dedup pass run on the concatenated `all_foods` list. -/
def master_dedup (all_foods : List FoodRecord) : List FoodRecord :=
  dedup_go [] all_foods

/-- Modelled from the spec: "first occurrence of a given key (in
concatenation order) is kept; all subsequent records sharing that key are
discarded. Records with a completely empty key are never deduplicated
against anything — each is kept unconditionally."  Keep each head; when its
key is non-empty, drop every later record with that key. -/
def dedup_spec : List FoodRecord → List FoodRecord
  | [] => []
  | item :: rest =>
    if get_sort_key item = [] then item :: dedup_spec rest
    else item :: dedup_spec (rest.filter (fun r => !(get_sort_key r == get_sort_key item)))
termination_by l => l.length
decreasing_by
  simp_wf
  have h := List.length_filter_le (fun r => !(get_sort_key r == get_sort_key item)) rest
  simp only [List.length_cons]
  omega

/-- Python string `s <= t` (lexicographic on code points), the order the
final `master_foods.sort(key=get_sort_key)` sorts by. -/
def str_le : Str → Str → Bool
  | [], _ => true
  | _ :: _, [] => false
  | a :: as, b :: bs => if a < b then true else if a = b then str_le as bs else false

/-- The comparison relation of the final sort: ascending on the derived key. -/
def rec_le (a b : FoodRecord) : Prop :=
  str_le (get_sort_key a) (get_sort_key b) = true

instance : DecidableRel rec_le := fun a b => instDecidableEqBool _ _

/-- The final `master_foods.sort(key=get_sort_key)`: Python's `list.sort` is
a stable ascending sort, modelled here by stable insertion sort (any two
stable ascending sorts agree pointwise). -/
def master_sort (l : List FoodRecord) : List FoodRecord :=
  List.insertionSort rec_le l

/-- The whole merge step: concatenate (done by the caller), deduplicate,
then sort by the derived key. -/
def merge_master (all_foods : List FoodRecord) : List FoodRecord :=
  master_sort (master_dedup all_foods)

/-- A record of `habitpet_fndds_added_foods.json` /
`habitpet_fndds_manual_additions.json` as `assign_category` sees it: only
the (already stringified, `str(item.get('fdcId', ''))`) identifier is read. -/
structure USDAItem where
  fdcId : Str
  deriving DecidableEq

/-- `assign_category` from `assign_usda_categories.py`: direct
FNDDS-identifier table first, then the two-hop SR-Legacy tables
(identifier to group id to group description), else "Uncategorized".
The three lookup tables are the dictionaries built in section 2 of the
script, passed here as finite-map parameters. -/
def assign_category
    (fndds_category_by_fdc_id categoryByFdcId categoryMap : Str → Option Str)
    (item : USDAItem) : Str :=
  let fdc_id := item.fdcId
  match fndds_category_by_fdc_id fdc_id with
  | some c => c
  | none =>
    match categoryByFdcId fdc_id with
    | some food_category_id =>
      match categoryMap food_category_id with
      | some c => c
      | none => "Uncategorized".toList
    | none => "Uncategorized".toList


/-! ## Extraction pass (`main` of `habitpet_extractor.py`, lines 268-289) -/

/-- One entry of a food item's `foodNutrients` list: the nutrient number
(`nutrient.nutrient.number`) and the optional `amount`. -/
structure FoodNutrient where
  number : Str
  amount : Option ℚ
  deriving DecidableEq

/-- An SR Legacy food item as the extraction loop reads it: its
`description` and its `foodNutrients`. -/
structure SRFood where
  description : Str
  foodNutrients : List FoodNutrient
  deriving DecidableEq

structure Nutrients where
  calories : Option ℚ
  protein : Option ℚ
  carbs : Option ℚ
  fat : Option ℚ
  deriving DecidableEq

/-- `extract_nutrients` from `habitpet_extractor.py`: scan `foodNutrients`,
filling the four macro slots from nutrient numbers 208/203/205/204. -/
def extract_nutrients (food_item : SRFood) : Nutrients :=
  food_item.foodNutrients.foldl (fun nutrients n =>
    if n.number = "208".toList then { nutrients with calories := n.amount }
    else if n.number = "203".toList then { nutrients with protein := n.amount }
    else if n.number = "205".toList then { nutrients with carbs := n.amount }
    else if n.number = "204".toList then { nutrients with fat := n.amount }
    else nutrients)
    ⟨none, none, none, none⟩

/-- Point update of the `whitelist_matches` dictionary
(`whitelist_matches[matched_item] = (food_item, score, description)`;
the stored description is recoverable from the stored food item). -/
def upd (m : Str → Option (SRFood × ℚ)) (k : Str) (v : SRFood × ℚ) :
    Str → Option (SRFood × ℚ) :=
  fun x => if x = k then some v else m x

/-- The `if matched_item not in whitelist_matches or score > ...[1]:` update
of the extraction loop, acting on one already-filtered match event
`(matched_item, food_item, score)`. -/
def assoc_step (m : Str → Option (SRFood × ℚ)) (ev : Str × SRFood × ℚ) :
    Str → Option (SRFood × ℚ) :=
  match m ev.1 with
  | none => upd m ev.1 ev.2
  | some prev => if ev.2.2 > prev.2 then upd m ev.1 ev.2 else m

/-- One iteration of the extraction loop over `sr_legacy_data`: match the
description, skip on no match or missing calories, else update the
best-match dictionary. -/
def build_step (s1 s2 s3 : Str → Str → ℚ) (whitelist : List Str)
    (m : Str → Option (SRFood × ℚ)) (food_item : SRFood) :
    Str → Option (SRFood × ℚ) :=
  match match_whitelist_item s1 s2 s3 food_item.description whitelist with
  | none => m
  | some (matched_item, score) =>
    if (extract_nutrients food_item).calories = none then m
    else assoc_step m (matched_item, food_item, score)

/-- The full extraction pass: fold the loop body over the source records,
starting from the empty dictionary. -/
def build_matches (s1 s2 s3 : Str → Str → ℚ) (whitelist : List Str)
    (sr_legacy_data : List SRFood) : Str → Option (SRFood × ℚ) :=
  sr_legacy_data.foldl (build_step s1 s2 s3 whitelist) (fun _ => none)

/-- The stream of match events the loop actually processes: for each source
record in order, its matched whitelist item and score, keeping only records
that matched and carry a calories value. -/
def match_events (s1 s2 s3 : Str → Str → ℚ) (whitelist : List Str)
    (sr_legacy_data : List SRFood) : List (Str × SRFood × ℚ) :=
  sr_legacy_data.filterMap (fun food_item =>
    match match_whitelist_item s1 s2 s3 food_item.description whitelist with
    | none => none
    | some (matched_item, score) =>
      if (extract_nutrients food_item).calories = none then none
      else some (matched_item, food_item, score))

/-- Modelled from the spec: "retain only the highest-confidence association
per vocabulary entry — ties broken by first-seen".  Selects from a list of
(record, score) associations the one with the maximal score, preferring the
earlier one on ties. -/
def best_assoc : List (SRFood × ℚ) → Option (SRFood × ℚ)
  | [] => none
  | x :: rest =>
    match best_assoc rest with
    | none => some x
    | some y => if y.2 > x.2 then some y else some x

/-- The associations competing for one whitelist entry `e` during a pass. -/
def matches_for (s1 s2 s3 : Str → Str → ℚ) (whitelist : List Str)
    (sr_legacy_data : List SRFood) (e : Str) : List (SRFood × ℚ) :=
  ((match_events s1 s2 s3 whitelist sr_legacy_data).filter
    (fun ev => ev.1 == e)).map (fun ev => ev.2)

/-! ## Concrete data used by witnesses -/

/-- A trivial scorer used to instantiate the external `rapidfuzz`
parameters on concrete inputs. -/
def zero_scorer : Str → Str → ℚ := fun _ _ => 0

/-- Witness source record: matched by prefix at confidence 95. -/
def apple_pie_food : SRFood :=
  ⟨"apple pie dessert".toList, [⟨"208".toList, some 50⟩]⟩

/-- Witness source record: matched exactly at confidence 100. -/
def apple_food : SRFood :=
  ⟨"apple".toList, [⟨"208".toList, some 30⟩]⟩

/-- Source record matching exactly at confidence 100 but carrying no
calories value, so the extraction loop skips it. -/
def apple_nocal_food : SRFood :=
  ⟨"apple".toList, []⟩

/-- Witness direct identifier table. -/
def fndds_tbl : Str → Option Str :=
  fun s => if s = "1".toList then some "Direct Cat".toList else none

/-- Witness identifier-to-group table. -/
def group_tbl : Str → Option Str :=
  fun s => if s = "2".toList then some "G".toList else none

/-- Witness group-to-description table. -/
def desc_tbl : Str → Option Str :=
  fun s => if s = "G".toList then some "Group Cat".toList else none

/-- Proof-side predicate: a record survives the dedup loop entered with
`seen` already-seen keys when its key is empty or unseen. -/
def keep_key (seen : List Str) (r : FoodRecord) : Bool :=
  decide (get_sort_key r = [] ∨ get_sort_key r ∉ seen)

/-- Proof-side relation: two records may coexist in a deduplicated list
only when their derived keys differ or are empty. -/
def key_unique (a b : FoodRecord) : Prop :=
  get_sort_key a = get_sort_key b → get_sort_key a = []

/-! # Theorems -/

/-- Python `hay.startswith("")` is always `True`. -/
theorem lsw_nil (x : Str) : listStartsWith x [] = true := by
  cases x <;> rfl

/-- C10: the classifier's output depends only on the matched whitelist
item, never on the description: `map_category` computes `desc_lower` but
reads only `item_lower`, so any two descriptions give the same category. -/
theorem map_category_ignores_description (d1 d2 w : Str) :
    map_category d1 w = map_category d2 w := rfl

/-- C3: if the first whitelist entry whose normalization equals the
normalized description is `v`, then `match_whitelist_item` returns exactly
`(v, 100)` — the tier-1 exact match — for every choice of fuzzy scorers
`s1 s2 s3`, so no lower tier (prefix, substring, fuzzy) is ever consulted. -/
theorem exact_match_short_circuits (s1 s2 s3 : Str → Str → ℚ)
    (description : Str) (whitelist : List Str) (v : Str)
    (h : whitelist.find?
      (fun item => normalize_text description == normalize_text item) = some v) :
    match_whitelist_item s1 s2 s3 description whitelist = some (v, 100) := by
  simp only [match_whitelist_item, h]

/-- Witness for `exact_match_short_circuits`: "Chicken!" normalizes to
"chicken", matching the first entry of the vocabulary at 100 even though
the scorers would report a different candidate. -/
theorem exact_match_short_circuits_witness :
    match_whitelist_item (fun _ _ => 99) (fun _ _ => 99) (fun _ _ => 99)
      "Chicken!".toList ["chicken".toList, "beef".toList] =
      some ("chicken".toList, 100) :=
  exact_match_short_circuits _ _ _ _ _ _ (by decide)

/-- C1 counterexample: the claim "blank description → no match" is false.
"!!!" normalizes to the empty string, yet with the non-empty vocabulary
["chicken"] the strategy-2 loop fires, because in Python every string
starts with the empty string (`item_normalized.startswith("") == True`),
so the first vocabulary entry is returned at confidence 95. -/
theorem blank_description_counterexample :
    match_whitelist_item zero_scorer zero_scorer zero_scorer
      "!!!".toList ["chicken".toList] = some ("chicken".toList, 95) := by
  decide

/-- C1 amended: for a description whose normalization is empty,
`match_whitelist_item` is total (never raises) and returns no match exactly
when the vocabulary is empty; any non-empty vocabulary produces a match
(tier 1 if some entry also normalizes to empty, else tier 2 on the first
entry, since every string starts with the empty string). -/
theorem blank_description_amended (s1 s2 s3 : Str → Str → ℚ)
    (description : Str) (whitelist : List Str)
    (h : normalize_text description = []) :
    (match_whitelist_item s1 s2 s3 description whitelist = none ↔
      whitelist = []) := by
  constructor
  · intro hres
    cases whitelist with
    | nil => rfl
    | cons v vs =>
      exfalso
      simp only [match_whitelist_item, h] at hres
      split at hres
      · exact Option.noConfusion hres
      · rw [List.find?_cons_of_pos _ (by simp [lsw_nil])] at hres
        exact Option.noConfusion hres
  · intro hw
    subst hw
    rfl

/-- Witness for `blank_description_amended` at a blank description and a
non-empty vocabulary. -/
theorem blank_description_amended_witness :
    normalize_text " .,".toList = [] ∧
      (match_whitelist_item zero_scorer zero_scorer zero_scorer
        " .,".toList ["chicken".toList] = none ↔
        ["chicken".toList] = ([] : List Str)) :=
  ⟨by decide, blank_description_amended _ _ _ _ _ (by decide)⟩

/-- C2 counterexample: for description "chicken breast grilled" and
vocabulary ["chicken"], the code returns confidence 95 (strategy 2:
"chicken" is a prefix of the normalized description), not the strategy-3
substring score min(7/22 × 90, 90) the claim asserts. -/
theorem substring_score_counterexample :
    match_whitelist_item zero_scorer zero_scorer zero_scorer
      "chicken breast grilled".toList ["chicken".toList] =
      some ("chicken".toList, 95) ∧
    ¬ ((95 : ℚ) = min (7 / 22 * 90) 90) := by
  constructor
  · decide
  · rw [min_def]
    norm_num

/-- C2 amended: for the description "chicken breast grilled" and a
vocabulary containing the entry "chicken", `match_whitelist_item` returns
the entry "chicken" with confidence exactly 95: the prefix tier
(strategy 2) fires before the substring tier is ever reached, whatever the
fuzzy scorers are. -/
theorem chicken_breast_grilled_match (s1 s2 s3 : Str → Str → ℚ) :
    match_whitelist_item s1 s2 s3
      "chicken breast grilled".toList ["chicken".toList] =
      some ("chicken".toList, 95) := rfl

/-- C6: `assign_category` is total (never raises) and tries the direct
FNDDS identifier table first, then the two-hop SR-Legacy tables, and
otherwise returns "Uncategorized". -/
theorem assign_category_precedence
    (fndds_category_by_fdc_id categoryByFdcId categoryMap : Str → Option Str)
    (item : USDAItem) :
    (∀ c, fndds_category_by_fdc_id item.fdcId = some c →
      assign_category fndds_category_by_fdc_id categoryByFdcId categoryMap item = c) ∧
    (∀ gid c, fndds_category_by_fdc_id item.fdcId = none →
      categoryByFdcId item.fdcId = some gid → categoryMap gid = some c →
      assign_category fndds_category_by_fdc_id categoryByFdcId categoryMap item = c) ∧
    (fndds_category_by_fdc_id item.fdcId = none →
      (∀ gid, categoryByFdcId item.fdcId = some gid → categoryMap gid = none) →
      assign_category fndds_category_by_fdc_id categoryByFdcId categoryMap item =
        "Uncategorized".toList) := by
  refine ⟨fun c h1 => ?_, fun gid c h1 h2 h3 => ?_, fun h1 h2 => ?_⟩
  · simp [assign_category, h1]
  · simp [assign_category, h1, h2, h3]
  · cases h3 : categoryByFdcId item.fdcId with
    | none => simp [assign_category, h1, h3]
    | some gid => simp [assign_category, h1, h3, h2 gid h3]

/-- Witness for `assign_category_precedence`: three concrete tables and
identifiers exercising the direct hit, the two-hop hit, and the default. -/
theorem assign_category_precedence_witness :
    assign_category fndds_tbl group_tbl desc_tbl ⟨"1".toList⟩ =
      "Direct Cat".toList ∧
    assign_category fndds_tbl group_tbl desc_tbl ⟨"2".toList⟩ =
      "Group Cat".toList ∧
    assign_category fndds_tbl group_tbl desc_tbl ⟨"9".toList⟩ =
      "Uncategorized".toList :=
  ⟨(assign_category_precedence fndds_tbl group_tbl desc_tbl ⟨"1".toList⟩).1
      _ (by decide),
   (assign_category_precedence fndds_tbl group_tbl desc_tbl ⟨"2".toList⟩).2.1
      "G".toList _ (by decide) (by decide) (by decide),
   (assign_category_precedence fndds_tbl group_tbl desc_tbl ⟨"9".toList⟩).2.2
      (by decide) (fun gid h => by simp [group_tbl] at h)⟩

/-- C4: classification is first-firing-rule-wins in the fixed priority
order.  (a) Any whitelist item containing both "beans" and "chicken" is
classified "Protein - Poultry" (the poultry rule precedes both the
plant-based and vegetables rules), for every description.  (b) Any
whitelist item containing "beans" but no keyword of the earlier rules
(poultry, meat, seafood) is classified "Protein - Plant-Based", not
"Vegetables" (the plant-based rule precedes the vegetables rule). -/
theorem map_category_priority :
    (∀ d item : Str,
      listContains (item.map Char.toLower) "beans".toList = true →
      listContains (item.map Char.toLower) "chicken".toList = true →
      map_category d item = "Protein - Poultry".toList) ∧
    (∀ d item : Str,
      listContains (item.map Char.toLower) "beans".toList = true →
      (∀ k ∈ kw_poultry ++ kw_meat ++ kw_seafood,
        listContains (item.map Char.toLower) k = false) →
      map_category d item = "Protein - Plant-Based".toList) := by
  constructor
  · intro d item _ hchicken
    have h1 : any_kw (item.map Char.toLower) kw_poultry = true := by
      simp only [any_kw, kw_poultry, List.any_eq_true]
      exact ⟨"chicken".toList, by simp, hchicken⟩
    simp [map_category, h1]
  · intro d item hbeans hnone
    have h1 : any_kw (item.map Char.toLower) kw_poultry = false := by
      simp only [any_kw, List.any_eq_false]
      intro k hk
      simp [hnone k (by simp [hk])]
    have h2 : any_kw (item.map Char.toLower) kw_meat = false := by
      simp only [any_kw, List.any_eq_false]
      intro k hk
      simp [hnone k (by simp [hk])]
    have h3 : any_kw (item.map Char.toLower) kw_seafood = false := by
      simp only [any_kw, List.any_eq_false]
      intro k hk
      simp [hnone k (by simp [hk])]
    have h4 : any_kw (item.map Char.toLower) kw_plant = true := by
      simp only [any_kw, kw_plant, List.any_eq_true]
      exact ⟨"beans".toList, by simp, hbeans⟩
    simp [map_category, h1, h2, h3, h4]

/-- Witness for `map_category_priority`: "beans chicken" classifies as
poultry; "beans" alone classifies as plant-based. -/
theorem map_category_priority_witness :
    map_category "x".toList "beans chicken".toList = "Protein - Poultry".toList ∧
    map_category "x".toList "beans".toList = "Protein - Plant-Based".toList :=
  ⟨map_category_priority.1 "x".toList "beans chicken".toList
      (by decide) (by decide),
   map_category_priority.2 "x".toList "beans".toList
      (by decide) (by decide)⟩

/-- The dedup loop run with an arbitrary set of already-seen keys agrees
with the spec-side recursion applied to the records not already excluded by
`seen`. -/
theorem dedup_go_eq_spec (l : List FoodRecord) : ∀ seen : List Str,
    dedup_go seen l = dedup_spec (l.filter (keep_key seen)) := by
  induction l with
  | nil => intro seen; simp [dedup_go, dedup_spec]
  | cons item rest ih =>
    intro seen
    by_cases hk : get_sort_key item = []
    · rw [List.filter_cons_of_pos (by simp [keep_key, hk])]
      simp only [dedup_go, dedup_spec]
      rw [if_neg (fun h => h.1 hk), if_pos hk, if_pos hk, ih seen]
    · by_cases hs : get_sort_key item ∈ seen
      · rw [List.filter_cons_of_neg (by simp [keep_key, hk, hs])]
        simp only [dedup_go]
        rw [if_neg (fun h => h.2 hs), if_neg hk]
        exact ih seen
      · rw [List.filter_cons_of_pos (by simp [keep_key, hs])]
        simp only [dedup_go, dedup_spec]
        rw [if_pos (And.intro hk hs), if_neg hk]
        rw [ih (get_sort_key item :: seen), List.filter_filter]
        have harg :
            List.filter (fun a => !(get_sort_key a == get_sort_key item) &&
                keep_key seen a) rest =
              List.filter (keep_key (get_sort_key item :: seen)) rest := by
          apply List.filter_congr
          intro r _
          by_cases h1 : get_sort_key r = []
          · by_cases h3 : get_sort_key r = get_sort_key item
            · exact absurd (h3.symm.trans h1) hk
            · simp [keep_key, h1, h3, hk]
          · by_cases h2 : get_sort_key r ∈ seen
            · by_cases h3 : get_sort_key r = get_sort_key item <;>
                simp [keep_key, h1, h2, h3, hk, List.mem_cons]
            · by_cases h3 : get_sort_key r = get_sort_key item <;>
                simp [keep_key, h1, h2, h3, hk, List.mem_cons]
        rw [harg]

/-- C5: the merger's dedup pass keeps, for every non-empty derived key, the
first record bearing that key and discards every later record with the same
key, while records with an empty derived key are kept unconditionally:
the loop equals the spec-side recursion `dedup_spec`. -/
theorem dedup_first_wins (all_foods : List FoodRecord) :
    master_dedup all_foods = dedup_spec all_foods := by
  rw [master_dedup, dedup_go_eq_spec all_foods []]
  congr 1
  apply List.filter_eq_self.mpr
  intro a _
  simp [keep_key]

/-- Lexicographic string order: reflexive. -/
theorem str_le_refl (s : Str) : str_le s s = true := by
  induction s with
  | nil => rfl
  | cons a as ih => simp [str_le, ih]

/-- Lexicographic string order: total. -/
theorem str_le_total (s t : Str) : str_le s t = true ∨ str_le t s = true := by
  induction s generalizing t with
  | nil => left; rfl
  | cons a as ih =>
    cases t with
    | nil => right; rfl
    | cons b bs =>
      rcases lt_trichotomy a b with h | h | h
      · left; simp [str_le, h]
      · subst h
        rcases ih bs with h2 | h2
        · left; simp [str_le, h2]
        · right; simp [str_le, h2]
      · right; simp [str_le, h]

/-- Lexicographic string order: transitive. -/
theorem str_le_trans : ∀ {s t u : Str},
    str_le s t = true → str_le t u = true → str_le s u = true := by
  intro s
  induction s with
  | nil => intro t u _ _; rfl
  | cons a as ih =>
    intro t u h1 h2
    cases t with
    | nil => simp [str_le] at h1
    | cons b bs =>
      cases u with
      | nil => simp [str_le] at h2
      | cons c cs =>
        simp only [str_le] at h1 h2 ⊢
        by_cases hab : a < b
        · by_cases hbc : b < c
          · simp [lt_trans hab hbc]
          · by_cases hbc2 : b = c
            · subst hbc2; simp [hab]
            · simp [hbc, hbc2] at h2
        · by_cases hab2 : a = b
          · subst hab2
            simp only [lt_self_iff_false, if_false, if_pos rfl] at h1
            by_cases hbc : a < c
            · simp [hbc]
            · by_cases hbc2 : a = c
              · subst hbc2
                simp only [lt_self_iff_false, if_false, if_pos rfl] at h2 ⊢
                exact ih h1 h2
              · simp [hbc, hbc2] at h2
          · simp [hab, hab2] at h1

instance : IsTrans FoodRecord rec_le :=
  ⟨fun _ _ _ h1 h2 => str_le_trans h1 h2⟩

instance : IsTotal FoodRecord rec_le :=
  ⟨fun a b => str_le_total (get_sort_key a) (get_sort_key b)⟩

/-- Every record emitted by the dedup loop has an empty key or a key not in
the entry `seen` set. -/
theorem mem_dedup_go (r : FoodRecord) (l : List FoodRecord) : ∀ seen : List Str,
    r ∈ dedup_go seen l → get_sort_key r = [] ∨ get_sort_key r ∉ seen := by
  induction l with
  | nil => intro seen h; simp [dedup_go] at h
  | cons item rest ih =>
    intro seen h
    simp only [dedup_go] at h
    by_cases hc1 : get_sort_key item ≠ [] ∧ get_sort_key item ∉ seen
    · rw [if_pos hc1] at h
      rcases List.mem_cons.mp h with h | h
      · subst h; right; exact hc1.2
      · rcases ih _ h with h' | h'
        · left; exact h'
        · right; exact fun hmem => h' (List.mem_cons_of_mem _ hmem)
    · rw [if_neg hc1] at h
      by_cases hc2 : get_sort_key item = []
      · rw [if_pos hc2] at h
        rcases List.mem_cons.mp h with h | h
        · subst h; left; exact hc2
        · exact ih _ h
      · rw [if_neg hc2] at h
        exact ih _ h

/-- The output of the dedup loop never carries the same non-empty derived
key twice. -/
theorem pairwise_dedup_go (l : List FoodRecord) : ∀ seen : List Str,
    (dedup_go seen l).Pairwise key_unique := by
  induction l with
  | nil => intro seen; simp [dedup_go]
  | cons item rest ih =>
    intro seen
    simp only [dedup_go]
    by_cases hc1 : get_sort_key item ≠ [] ∧ get_sort_key item ∉ seen
    · rw [if_pos hc1]
      refine List.Pairwise.cons ?_ (ih _)
      intro b hb heq
      rcases mem_dedup_go b rest _ hb with h' | h'
      · exact heq.trans h'
      · exact absurd (heq ▸ List.mem_cons_self _ _) h'
    · rw [if_neg hc1]
      by_cases hc2 : get_sort_key item = []
      · rw [if_pos hc2]
        exact List.Pairwise.cons (fun b _ _ => hc2) (ih _)
      · rw [if_neg hc2]
        exact ih _

/-- On a list whose non-empty keys are already pairwise distinct and avoid
`seen`, the dedup loop is the identity. -/
theorem dedup_go_of_pairwise (l : List FoodRecord) : ∀ seen : List Str,
    l.Pairwise key_unique →
    (∀ r ∈ l, get_sort_key r ≠ [] → get_sort_key r ∉ seen) →
    dedup_go seen l = l := by
  induction l with
  | nil => intro seen _ _; rfl
  | cons item rest ih =>
    intro seen hp hs
    rcases List.pairwise_cons.mp hp with ⟨hhead, htail⟩
    by_cases hk : get_sort_key item = []
    · simp only [dedup_go]
      rw [if_neg (fun h => h.1 hk), if_pos hk,
        ih seen htail (fun r hr => hs r (List.mem_cons_of_mem _ hr))]
    · have hnot : get_sort_key item ∉ seen := hs item (List.mem_cons_self _ _) hk
      simp only [dedup_go]
      rw [if_pos (And.intro hk hnot)]
      have harg : ∀ r ∈ rest, get_sort_key r ≠ [] →
          get_sort_key r ∉ get_sort_key item :: seen := by
        intro r hr hrk hmem
        rcases List.mem_cons.mp hmem with h | h
        · exact hk (hhead r hr h.symm)
        · exact hs r (List.mem_cons_of_mem _ hr) hrk h
      rw [ih (get_sort_key item :: seen) htail harg]

/-- C8: the Merger (dedup by derived key, then stable sort by the same key)
is idempotent: a second application returns its input unchanged, element
for element and in order. -/
theorem merge_master_idempotent (all_foods : List FoodRecord) :
    merge_master (merge_master all_foods) = merge_master all_foods := by
  have hsym : ∀ {a b : FoodRecord}, key_unique a b → key_unique b a :=
    fun h heq => heq.trans (h heq.symm)
  have hpair : (master_dedup all_foods).Pairwise key_unique :=
    pairwise_dedup_go all_foods []
  have hperm : (List.insertionSort rec_le (master_dedup all_foods)).Perm
      (master_dedup all_foods) :=
    List.perm_insertionSort _ _
  have hpair2 : (List.insertionSort rec_le (master_dedup all_foods)).Pairwise
      key_unique :=
    (List.Perm.pairwise_iff (fun h => hsym h) hperm).mpr hpair
  show master_sort (master_dedup (master_sort (master_dedup all_foods))) = _
  rw [show master_dedup (master_sort (master_dedup all_foods)) =
      master_sort (master_dedup all_foods) from
    dedup_go_of_pairwise _ [] hpair2 (fun r _ _ h => List.not_mem_nil _ h)]
  exact List.Sorted.insertionSort_eq (List.sorted_insertionSort rec_le _)

/-- Inserting a record whose key is `k` into a list leaves it in front of
every held record with key `k` (the skipped records all have keys strictly
below `k`, hence different from `k`). -/
theorem filter_orderedInsert_of_eq {x : FoodRecord} {k : Str}
    (h : get_sort_key x = k) : ∀ l : List FoodRecord,
    (List.orderedInsert rec_le x l).filter (fun r => get_sort_key r == k) =
      x :: l.filter (fun r => get_sort_key r == k) := by
  intro l
  induction l with
  | nil => simp [List.orderedInsert, h]
  | cons b bs ih =>
    simp only [List.orderedInsert]
    by_cases hr : rec_le x b
    · rw [if_pos hr, List.filter_cons_of_pos (by simp [h])]
    · rw [if_neg hr]
      have hb : ¬ (get_sort_key b = k) := by
        intro hbk
        exact hr (show str_le (get_sort_key x) (get_sort_key b) = true by
          rw [h, hbk]; exact str_le_refl k)
      rw [List.filter_cons_of_neg (by simp [hb]), ih,
        List.filter_cons_of_neg (by simp [hb])]

/-- Inserting a record whose key is not `k` does not change the key-`k`
subsequence. -/
theorem filter_orderedInsert_of_ne {x : FoodRecord} {k : Str}
    (h : ¬ (get_sort_key x = k)) : ∀ l : List FoodRecord,
    (List.orderedInsert rec_le x l).filter (fun r => get_sort_key r == k) =
      l.filter (fun r => get_sort_key r == k) := by
  intro l
  induction l with
  | nil => simp [List.orderedInsert, h]
  | cons b bs ih =>
    simp only [List.orderedInsert]
    by_cases hr : rec_le x b
    · rw [if_pos hr, List.filter_cons_of_neg (by simp [h])]
    · rw [if_neg hr]
      by_cases hb : get_sort_key b = k
      · rw [List.filter_cons_of_pos (by simp [hb]), ih,
          List.filter_cons_of_pos (by simp [hb])]
      · rw [List.filter_cons_of_neg (by simp [hb]), ih,
          List.filter_cons_of_neg (by simp [hb])]

/-- The final sort is stable: for each key `k`, the subsequence of records
whose derived key is `k` is exactly the one of the input, in order. -/
theorem master_sort_stable (l : List FoodRecord) (k : Str) :
    (master_sort l).filter (fun r => get_sort_key r == k) =
      l.filter (fun r => get_sort_key r == k) := by
  induction l with
  | nil => rfl
  | cons x xs ih =>
    show (List.orderedInsert rec_le x (master_sort xs)).filter _ = _
    by_cases hx : get_sort_key x = k
    · rw [filter_orderedInsert_of_eq hx, ih,
        List.filter_cons_of_pos (by simp [hx])]
    · rw [filter_orderedInsert_of_ne hx, ih,
        List.filter_cons_of_neg (by simp [hx])]

/-- C9: the final sort of the deduplicated catalog is a stable ascending
sort on the derived key: the output is ordered by `str_le` on
`get_sort_key`, and for every key `k` the records with that key (in
particular those with empty keys) appear in the same relative order as in
the deduplicated input. -/
theorem master_sort_ordered_and_stable (all_foods : List FoodRecord) (k : Str) :
    List.Pairwise rec_le (master_sort (master_dedup all_foods)) ∧
    (master_sort (master_dedup all_foods)).filter
        (fun r => get_sort_key r == k) =
      (master_dedup all_foods).filter (fun r => get_sort_key r == k) :=
  ⟨List.sorted_insertionSort rec_le (master_dedup all_foods),
   master_sort_stable (master_dedup all_foods) k⟩

/-- Absorbing one comparison into the head of `best_assoc`: comparing the
current holder `c` against a challenger `x` first and then scanning `L`
equals scanning `c :: x :: L`. -/
theorem best_assoc_absorb (c x : SRFood × ℚ) (L : List (SRFood × ℚ)) :
    best_assoc (c :: x :: L) = best_assoc ((if x.2 > c.2 then x else c) :: L) := by
  rcases hL : best_assoc L with _ | y
  · simp only [best_assoc, hL]
    by_cases hxc : x.2 > c.2 <;> simp [hxc]
  · simp only [best_assoc, hL]
    by_cases hyx : y.2 > x.2
    · by_cases hxc : x.2 > c.2
      · simp [hyx, hxc, lt_trans hxc hyx]
      · simp [hyx, hxc]
    · by_cases hxc : x.2 > c.2
      · simp [hyx, hxc]
      · have hyc : ¬ y.2 > c.2 := fun hgt =>
          hyx (lt_of_le_of_lt (not_lt.mp hxc) hgt)
        simp [hyx, hxc, hyc]

/-- `best_assoc` never returns `none` on a non-empty list. -/
theorem best_assoc_none : ∀ L : List (SRFood × ℚ), best_assoc L = none → L = [] := by
  intro L h
  cases L with
  | nil => rfl
  | cons a L =>
    exfalso
    rcases hL : best_assoc L with _ | y
    · simp [best_assoc, hL] at h
    · simp only [best_assoc, hL] at h
      by_cases hgt : y.2 > a.2 <;> simp [hgt] at h

/-- The association selected by `best_assoc` has a maximal score. -/
theorem best_assoc_le : ∀ (L : List (SRFood × ℚ)) (r : SRFood × ℚ),
    best_assoc L = some r → ∀ x ∈ L, x.2 ≤ r.2 := by
  intro L
  induction L with
  | nil => intro r h; simp [best_assoc] at h
  | cons a L ih =>
    intro r h x hx
    rcases hL : best_assoc L with _ | y
    · simp only [best_assoc, hL, Option.some.injEq] at h
      subst h
      rcases List.mem_cons.mp hx with hx | hx
      · subst hx; exact le_refl _
      · rw [best_assoc_none L hL] at hx; simp at hx
    · simp only [best_assoc, hL] at h
      by_cases hgt : y.2 > a.2
      · rw [if_pos hgt, Option.some.injEq] at h
        subst h
        rcases List.mem_cons.mp hx with hx | hx
        · subst hx; exact le_of_lt hgt
        · exact ih y hL x hx
      · rw [if_neg hgt, Option.some.injEq] at h
        subst h
        rcases List.mem_cons.mp hx with hx | hx
        · subst hx; exact le_refl _
        · exact le_trans (ih y hL x hx) (not_lt.mp hgt)

/-- The dictionary update leaves every other key unchanged. -/
theorem assoc_step_ne {m : Str → Option (SRFood × ℚ)} {ev : Str × SRFood × ℚ}
    {x : Str} (h : x ≠ ev.1) : assoc_step m ev x = m x := by
  rcases hme : m ev.1 with _ | prev
  · simp [assoc_step, upd, hme, h]
  · by_cases hgt : ev.2.2 > prev.2 <;> simp [assoc_step, upd, hme, hgt, h]

/-- Folding the per-event update computes, at each key, `best_assoc` of the
current holder followed by that key's events. -/
theorem foldl_assoc_step (evs : List (Str × SRFood × ℚ)) :
    ∀ (m : Str → Option (SRFood × ℚ)) (e : Str),
    (evs.foldl assoc_step m) e =
      best_assoc ((m e).toList ++
        (evs.filter (fun ev => ev.1 == e)).map (fun ev => ev.2)) := by
  induction evs with
  | nil =>
    intro m e
    rcases hme : m e with _ | c <;> simp [best_assoc, hme]
  | cons ev evs ih =>
    intro m e
    rw [List.foldl_cons, ih]
    by_cases he : ev.1 = e
    · rw [List.filter_cons_of_pos (by simp [he])]
      subst he
      rcases hme : m ev.1 with _ | prev
      · have h1 : assoc_step m ev ev.1 = some ev.2 := by
          simp [assoc_step, upd, hme]
        rw [h1]
        simp [Option.toList]
      · have h1 : assoc_step m ev ev.1 =
            some (if ev.2.2 > prev.2 then ev.2 else prev) := by
          by_cases hgt : ev.2.2 > prev.2 <;> simp [assoc_step, upd, hme, hgt]
        rw [h1]
        simp only [Option.toList, List.singleton_append, List.map_cons,
          List.cons_append]
        exact (best_assoc_absorb prev ev.2 _).symm
    · rw [List.filter_cons_of_neg (by simp [he]),
        assoc_step_ne (fun hh => he hh.symm)]

/-- The extraction loop processes exactly the filtered event stream. -/
theorem build_matches_eq_foldl (s1 s2 s3 : Str → Str → ℚ) (wl : List Str) :
    ∀ (foods : List SRFood) (m : Str → Option (SRFood × ℚ)),
    foods.foldl (build_step s1 s2 s3 wl) m =
      (match_events s1 s2 s3 wl foods).foldl assoc_step m := by
  intro foods
  induction foods with
  | nil => intro m; rfl
  | cons f fs ih =>
    intro m
    rw [List.foldl_cons]
    rcases hm : match_whitelist_item s1 s2 s3 f.description wl with _ | ⟨item, score⟩
    · have h1 : build_step s1 s2 s3 wl m f = m := by simp [build_step, hm]
      have h2 : match_events s1 s2 s3 wl (f :: fs) =
          match_events s1 s2 s3 wl fs := by
        simp [match_events, List.filterMap_cons, hm]
      rw [h1, h2]; exact ih m
    · by_cases hcal : (extract_nutrients f).calories = none
      · have h1 : build_step s1 s2 s3 wl m f = m := by
          simp [build_step, hm, hcal]
        have h2 : match_events s1 s2 s3 wl (f :: fs) =
            match_events s1 s2 s3 wl fs := by
          simp [match_events, List.filterMap_cons, hm, hcal]
        rw [h1, h2]; exact ih m
      · have h1 : build_step s1 s2 s3 wl m f = assoc_step m (item, f, score) := by
          simp [build_step, hm, hcal]
        have h2 : match_events s1 s2 s3 wl (f :: fs) =
            (item, f, score) :: match_events s1 s2 s3 wl fs := by
          simp [match_events, List.filterMap_cons, hm, hcal]
        rw [h1, h2, List.foldl_cons]; exact ih _

/-- C7 (amended): across a full extraction pass, for every whitelist entry
the retained association is the one with the strictly highest confidence
among the source records that matched that entry AND carry a calories
value — the loop skips calorie-less matches (`if nutrients['calories'] is
None: continue`) — with ties broken first-seen: the retained association is
`best_assoc` of that entry's calorie-bearing match events, and every such
competing association's score is bounded by the retained one. -/
theorem extraction_retains_best (s1 s2 s3 : Str → Str → ℚ) (wl : List Str)
    (foods : List SRFood) (e : Str) :
    build_matches s1 s2 s3 wl foods e =
      best_assoc (matches_for s1 s2 s3 wl foods e) ∧
    ∀ x ∈ matches_for s1 s2 s3 wl foods e,
      ∀ r, build_matches s1 s2 s3 wl foods e = some r → x.2 ≤ r.2 := by
  have h1 : build_matches s1 s2 s3 wl foods e =
      best_assoc (matches_for s1 s2 s3 wl foods e) := by
    rw [build_matches, build_matches_eq_foldl, foldl_assoc_step]
    simp [matches_for]
  exact ⟨h1, fun x hx r hr => best_assoc_le _ r (h1 ▸ hr) x hx⟩

/-- Witness for `extraction_retains_best`: with vocabulary ["apple"], the
record "apple pie dessert" matches at 95 and the record "apple" at 100;
the pass retains the 100-scoring association, and 95 ≤ 100. -/
theorem extraction_retains_best_witness :
    build_matches zero_scorer zero_scorer zero_scorer ["apple".toList]
        [apple_pie_food, apple_food] "apple".toList =
      best_assoc (matches_for zero_scorer zero_scorer zero_scorer
        ["apple".toList] [apple_pie_food, apple_food] "apple".toList) ∧
    (95 : ℚ) ≤ 100 :=
  ⟨(extraction_retains_best zero_scorer zero_scorer zero_scorer
      ["apple".toList] [apple_pie_food, apple_food] "apple".toList).1,
   (extraction_retains_best zero_scorer zero_scorer zero_scorer
      ["apple".toList] [apple_pie_food, apple_food] "apple".toList).2
     (apple_pie_food, 95) (by decide) (apple_food, 100) (by decide)⟩

/-- C7 counterexample: the claim over "all source records that matched that
entry" is false.  The calorie-less record "apple" matches the entry "apple"
with the strictly highest confidence 100, yet the pass skips it
(`habitpet_extractor.py` line 284) and retains the lower-scoring (95)
calorie-bearing record "apple pie dessert": the retained confidence 95 is
not the highest among all matching records. -/
theorem extraction_retains_best_counterexample :
    match_whitelist_item zero_scorer zero_scorer zero_scorer
      apple_nocal_food.description ["apple".toList] =
      some ("apple".toList, 100) ∧
    build_matches zero_scorer zero_scorer zero_scorer ["apple".toList]
      [apple_nocal_food, apple_pie_food] "apple".toList =
      some (apple_pie_food, 95) ∧
    ¬ ((95 : ℚ) = 100) :=
  ⟨by decide, by decide, by norm_num⟩
